import Mathlib

/-!
Shallow embedding of `src/libbrz/src/render.rs` (the `render` module of the
breeze editor's `libbrz` crate): `Coord`, `Style`, `ColorMap`, `Rect`, the
`Renderer` trait and the `View` adapter.

Modelling conventions:
* `usize` values are `Nat`.  Where the source performs machine arithmetic
  whose overflow behaviour matters, the 64-bit width is explicit:
  `wrapAdd` models Rust's plain `+` on `usize` (which wraps modulo `2^64`
  when overflow checks are disabled, and aborts rather than saturating when
  they are enabled — in neither mode does it saturate), and `satAdd` models
  `usize::saturating_add`.
* `isize` values are `Int`; the `as` casts between `usize` and `isize` are
  the two's-complement reinterpretations `isizeOfUsize` / `usizeOfIsize`.
* A Rust function that can panic (`panic!`, `assert!`) is modelled as
  returning `Option`, with `none` for the panic.
* The `Renderer` trait is modelled as a record of state-transformers
  `RendererModel σ` over an abstract backend state `σ`; the trait's provided
  methods `print` and `dimensions_rect` are functions over that record.
  A concrete backend `traceBackend` records the sequence of operations it
  receives, so that "the backend's `put` is invoked exactly once at `w`"
  becomes an equation between operation logs.
-/

namespace Brz

/-- `2^64`, the number of `usize` values on a 64-bit target. -/
def USIZE_SIZE : Nat := 2 ^ 64

/-- `usize::MAX` on a 64-bit target. -/
def usizeMax : Nat := USIZE_SIZE - 1

/-- Rust's plain `+` on `usize`: wraps modulo `2^64` on overflow
(release-mode semantics; with overflow checks it would abort instead —
either way it does not saturate). -/
def wrapAdd (a b : Nat) : Nat := (a + b) % USIZE_SIZE

/-- `usize::saturating_add`: clamps at `usize::MAX`. -/
def satAdd (a b : Nat) : Nat := min (a + b) usizeMax

/-- The `as isize` reinterpretation of a `usize` value. -/
def isizeOfUsize (n : Nat) : Int :=
  if n < 2 ^ 63 then (n : Int) else (n : Int) - (USIZE_SIZE : Int)

/-- The `as usize` reinterpretation of an `isize` value. -/
def usizeOfIsize (i : Int) : Nat := (i % (USIZE_SIZE : Int)).toNat

/-- `Style { fg: u32, bg: u32, style: u32 }` (render.rs lines 5-10). -/
structure Style where
  fg : Nat
  bg : Nat
  style : Nat
deriving DecidableEq

/-- `Coord { x: usize, y: usize }` (render.rs lines 12-16). -/
structure Coord where
  x : Nat
  y : Nat
deriving DecidableEq

/-- `ColorMap { default_bg: u32, default_fg: u32 }` (render.rs lines 18-21). -/
structure ColorMap where
  default_bg : Nat
  default_fg : Nat
deriving DecidableEq

/-- `ColorMap::default_style` (render.rs lines 24-30). -/
def ColorMap.default_style (c : ColorMap) : Style :=
  { fg := c.default_fg, bg := c.default_bg, style := 0 }

/-- `impl Add<Coord> for Coord` (render.rs lines 33-41): component-wise
`usize` addition with Rust's plain `+`. -/
def Coord.add (a b : Coord) : Coord :=
  { y := wrapAdd a.y b.y, x := wrapAdd a.x b.x }

instance : Add Coord := ⟨Coord.add⟩

/-- `Coord::add_x` (render.rs lines 44-47): saturating add on `x`. -/
def Coord.add_x (c : Coord) (x : Nat) : Coord :=
  { c with x := satAdd c.x x }

/-- `Coord::add_y` (render.rs lines 49-52): saturating add on `y`. -/
def Coord.add_y (c : Coord) (y : Nat) : Coord :=
  { c with y := satAdd c.y y }

/-- `Coord::center` (render.rs lines 54-59). -/
def Coord.center (c : Coord) : Coord :=
  { x := c.x / 2, y := c.y / 2 }

/-- `Coord::is_inside_dimensions` (render.rs lines 61-63):
`self.y < other.y && self.x < other.x`. -/
def Coord.is_inside_dimensions (c other : Coord) : Bool :=
  decide (c.y < other.y) && decide (c.x < other.x)

/-- `Rect { offset: Coord, dimensions: Coord }` (render.rs lines 113-117). -/
structure Rect where
  offset : Coord
  dimensions : Coord
deriving DecidableEq

/-- `Coord::is_inside` (render.rs lines 64-66). -/
def Coord.is_inside (c : Coord) (other : Rect) : Bool :=
  c.is_inside_dimensions other.dimensions

/-- The index-resolution block shared by both split functions (render.rs
lines 121-127 and 152-158): a negative index is counted from the far edge
via `(dim as isize + x) as usize`, a positive one is `x as usize`, and `0`
is `panic!("Can't split at 0")`, modelled as `none`. -/
def resolveSplitIndex (dim : Nat) (x : Int) : Option Nat :=
  if x < 0 then some (usizeOfIsize (isizeOfUsize dim + x))
  else if 0 < x then some (usizeOfIsize x)
  else none

/-- `Rect::split_verticaly_at` (render.rs lines 120-149).  `none` models the
`panic!("Can't split at 0")` for argument `0` and the failure of
`assert!(x < self.dimensions.x)`. -/
def Rect.split_verticaly_at (r : Rect) (x : Int) : Option (Rect × Rect) :=
  match resolveSplitIndex r.dimensions.x x with
  | none => none
  | some x =>
    if x < r.dimensions.x then
      some
        ({ offset := r.offset,
           dimensions := { x := x, y := r.dimensions.y } },
         { offset := { x := wrapAdd r.offset.x x, y := r.offset.y },
           dimensions := { x := r.dimensions.x - x, y := r.dimensions.y } })
    else none

/-- `Rect::split_horizontaly_at` (render.rs lines 151-181). -/
def Rect.split_horizontaly_at (r : Rect) (y : Int) : Option (Rect × Rect) :=
  match resolveSplitIndex r.dimensions.y y with
  | none => none
  | some y =>
    if y < r.dimensions.y then
      some
        ({ offset := r.offset,
           dimensions := { x := r.dimensions.x, y := y } },
         { offset := { x := r.offset.x, y := wrapAdd r.offset.y y },
           dimensions := { x := r.dimensions.x, y := r.dimensions.y - y } })
    else none

/-- The `Renderer` trait (render.rs lines 69-93) as a record of
state-transformers over a backend state `σ`: the four required methods. -/
structure RendererModel (σ : Type) where
  color_map : σ → ColorMap
  dimensions : σ → Coord
  put : σ → Coord → Char → Style → σ
  set_cursor : σ → Option Coord → σ

/-- The provided method `Renderer::dimensions_rect` (render.rs lines 73-78). -/
def RendererModel.dimensions_rect {σ : Type} (R : RendererModel σ) (s : σ) : Rect :=
  { offset := { x := 0, y := 0 }, dimensions := R.dimensions s }

/-- The loop body of `Renderer::print` (render.rs lines 83-89): `i` is the
`enumerate` index, `dims` the dimensions captured before the loop. -/
def printLoop {σ : Type} (R : RendererModel σ) (dims coord : Coord) (style : Style) :
    σ → Nat → List Char → σ
  | s, _, [] => s
  | s, i, ch :: rest =>
    let c := coord.add_x i
    if c.is_inside_dimensions dims then
      printLoop R dims coord style (R.put s c ch style) (i + 1) rest
    else s

/-- The provided method `Renderer::print` (render.rs lines 81-90). -/
def RendererModel.print {σ : Type} (R : RendererModel σ) (s : σ) (coord : Coord)
    (text : List Char) (style : Style) : σ :=
  printLoop R (R.dimensions s) coord style s 0 text

/-- `impl<T> Renderer for &mut T` (render.rs lines 95-111): every method
forwards to the underlying renderer unchanged. -/
def mutRef {σ : Type} (R : RendererModel σ) : RendererModel σ where
  color_map := fun s => R.color_map s
  dimensions := fun s => R.dimensions s
  put := fun s coord ch style => R.put s coord ch style
  set_cursor := fun s coord => R.set_cursor s coord

/-- `View { rect, backend }` (render.rs lines 195-198); the `&mut R` backend
is its `RendererModel`. -/
structure View (σ : Type) where
  rect : Rect
  backend : RendererModel σ

/-- `impl Renderer for View` (render.rs lines 200-219). -/
def View.renderer {σ : Type} (v : View σ) : RendererModel σ where
  color_map := fun s => v.backend.color_map s
  dimensions := fun _ => v.rect.dimensions
  put := fun s coord ch style =>
    if coord.is_inside v.rect then v.backend.put s (coord + v.rect.offset) ch style
    else s
  set_cursor := fun s coord =>
    v.backend.set_cursor s (coord.map fun c => c + v.rect.offset)

/-- `Rect::to_renderer` (render.rs lines 183-191): wrap a backend into a
`View` with this rect, used through its `Renderer` impl. -/
def Rect.to_renderer {σ : Type} (r : Rect) (R : RendererModel σ) : RendererModel σ :=
  (View.mk r R).renderer

/-- One operation received by a backend renderer. -/
inductive RendererOp where
  | putOp (coord : Coord) (ch : Char) (style : Style)
  | cursorOp (coord : Option Coord)
deriving DecidableEq

/-- A concrete backend whose state is the log of operations it received:
`put` and `set_cursor` append one entry. -/
def traceBackend (dims : Coord) (cm : ColorMap) : RendererModel (List RendererOp) where
  color_map := fun _ => cm
  dimensions := fun _ => dims
  put := fun s coord ch style => s ++ [RendererOp.putOp coord ch style]
  set_cursor := fun s coord => s ++ [RendererOp.cursorOp coord]

/-- A chain of nested `View`s, outermost first: each rect is expressed in the
local coordinate space of the next one (the last rect in the base backend's
space). -/
def nestedRenderer {σ : Type} (rs : List Rect) (R : RendererModel σ) : RendererModel σ :=
  match rs with
  | [] => R
  | r :: rest => (View.mk r (nestedRenderer rest R)).renderer

/-- The coordinate a `put` issued at `c` against the chain `rs` of nested
views reaches the base backend with (`none` when some level clips it). -/
def chainPut (rs : List Rect) (c : Coord) : Option Coord :=
  match rs with
  | [] => some c
  | r :: rest => if c.is_inside r then chainPut rest (c + r.offset) else none

/-- Component-wise sum of the offsets of a list of rects (exact `Nat`
arithmetic; used to express regions in base-backend coordinates). -/
def offsetSum (rs : List Rect) : Coord :=
  match rs with
  | [] => { x := 0, y := 0 }
  | r :: rest => { x := r.offset.x + (offsetSum rest).x, y := r.offset.y + (offsetSum rest).y }

/-- A rect whose far corner is a representable `usize` coordinate. -/
def Rect.representable (r : Rect) : Prop :=
  r.offset.x + r.dimensions.x ≤ usizeMax ∧ r.offset.y + r.dimensions.y ≤ usizeMax

instance (r : Rect) : Decidable r.representable := by
  unfold Rect.representable; infer_instance

/-- Specification-side description of `print` (written from the spec's
words, to be compared with the source's `print`): the `i`-th character of
the text is written at `coord` advanced by `i` on the x axis — with exact
arithmetic — and output stops at the first character whose coordinate fails
the strict bounds check against the dimensions. -/
def printSpecOps (dims coord : Coord) (style : Style) : Nat → List Char → List RendererOp
  | _, [] => []
  | i, ch :: rest =>
    if coord.y < dims.y ∧ coord.x + i < dims.x then
      RendererOp.putOp { x := coord.x + i, y := coord.y } ch style
        :: printSpecOps dims coord style (i + 1) rest
    else []

/-! ## Helper lemmas -/

theorem coord_add_x (a b : Coord) : (a + b).x = wrapAdd a.x b.x := rfl

theorem coord_add_y (a b : Coord) : (a + b).y = wrapAdd a.y b.y := rfl

theorem usizeSize_eq : USIZE_SIZE = usizeMax + 1 := rfl

theorem wrapAdd_eq_of_le {a b : Nat} (h : a + b ≤ usizeMax) : wrapAdd a b = a + b := by
  have h2 : a + b < USIZE_SIZE := by rw [usizeSize_eq]; omega
  simp only [wrapAdd]
  exact Nat.mod_eq_of_lt h2

theorem usizeOfIsize_eq_toNat {i : Int} (h0 : 0 ≤ i) (h1 : i < (USIZE_SIZE : Int)) :
    usizeOfIsize i = i.toNat := by
  simp only [usizeOfIsize]
  rw [Int.emod_eq_of_lt h0 h1]

theorem usizeOfIsize_natCast (n : Nat) (h : n < USIZE_SIZE) :
    usizeOfIsize (n : Int) = n := by
  rw [usizeOfIsize_eq_toNat (Int.natCast_nonneg n) (by exact_mod_cast h)]
  exact Int.toNat_natCast n

theorem is_inside_eq_true_iff (c : Coord) (r : Rect) :
    c.is_inside r = true ↔ c.y < r.dimensions.y ∧ c.x < r.dimensions.x := by
  simp [Coord.is_inside, Coord.is_inside_dimensions]

/-! ## Claim theorems -/

/-- C3: if `c` is strictly within the view's `rect.dimensions`, `View::put`
delegates to the backend's `put` exactly once, at `c + rect.offset`, with
the same character and style; otherwise it is a silent no-op: the backend
state is unchanged and no backend operation is invoked. -/
theorem view_put_translate_or_drop {σ : Type} (R : RendererModel σ) (s : σ)
    (r : Rect) (c : Coord) (ch : Char) (st : Style) :
    (c.is_inside_dimensions r.dimensions = true →
      (View.mk r R).renderer.put s c ch st = R.put s (c + r.offset) ch st)
    ∧ (c.is_inside_dimensions r.dimensions = false →
      (View.mk r R).renderer.put s c ch st = s) := by
  constructor <;> intro h <;> simp [View.renderer, Coord.is_inside, h]

/-- Witness for C3, the spec's own example: backend of dimensions `(10,5)`,
view rect `{offset:(3,1), dimensions:(4,2)}`; `put (0,0)` logs exactly one
backend write at `(3,1)`, `put (4,0)` logs nothing. -/
theorem view_put_translate_or_drop_witness :
    (View.mk ⟨⟨3, 1⟩, ⟨4, 2⟩⟩ (traceBackend ⟨10, 5⟩ ⟨0, 0⟩)).renderer.put []
      ⟨0, 0⟩ 'x' ⟨0, 0, 0⟩ = [RendererOp.putOp ⟨3, 1⟩ 'x' ⟨0, 0, 0⟩]
    ∧ (View.mk ⟨⟨3, 1⟩, ⟨4, 2⟩⟩ (traceBackend ⟨10, 5⟩ ⟨0, 0⟩)).renderer.put []
      ⟨4, 0⟩ 'x' ⟨0, 0, 0⟩ = [] := by
  constructor
  · rw [(view_put_translate_or_drop (traceBackend ⟨10, 5⟩ ⟨0, 0⟩) []
      ⟨⟨3, 1⟩, ⟨4, 2⟩⟩ ⟨0, 0⟩ 'x' ⟨0, 0, 0⟩).1 (by decide)]
    decide
  · rw [(view_put_translate_or_drop (traceBackend ⟨10, 5⟩ ⟨0, 0⟩) []
      ⟨⟨3, 1⟩, ⟨4, 2⟩⟩ ⟨4, 0⟩ 'x' ⟨0, 0, 0⟩).2 (by decide)]

/-- C8: `View::set_cursor (Some c)` forwards `Some (c + rect.offset)` to the
backend with no bounds check, and `set_cursor None` forwards `None`
unmodified. -/
theorem view_set_cursor_translates {σ : Type} (R : RendererModel σ) (s : σ)
    (r : Rect) (c : Coord) :
    (View.mk r R).renderer.set_cursor s (some c) = R.set_cursor s (some (c + r.offset))
    ∧ (View.mk r R).renderer.set_cursor s none = R.set_cursor s none :=
  ⟨rfl, rfl⟩

/-- C9: the `&mut T` renderer is the renderer itself: every required method
forwards unchanged, so the whole record is equal and the derived `print` and
`dimensions_rect` behave identically through the reference. -/
theorem mut_ref_renderer_id {σ : Type} (R : RendererModel σ) (s : σ) (c : Coord)
    (text : List Char) (st : Style) :
    mutRef R = R
    ∧ (mutRef R).print s c text st = R.print s c text st
    ∧ (mutRef R).dimensions_rect s = R.dimensions_rect s :=
  ⟨rfl, rfl, rfl⟩

/-- C10: `Rect::to_renderer` and `View::put` never consult the backend's
`dimensions()`: whenever `c` is strictly inside the view's own dimensions,
the put is forwarded to the backend at `c + rect.offset`, for every backend
whatsoever — in particular one whose dimensions the translated coordinate
exceeds. -/
theorem put_ignores_backend_dimensions {σ : Type} (B : RendererModel σ) (s : σ)
    (r : Rect) (c : Coord) (ch : Char) (st : Style)
    (hin : c.is_inside_dimensions r.dimensions = true) :
    (r.to_renderer B).put s c ch st = B.put s (c + r.offset) ch st := by
  simp [Rect.to_renderer, View.renderer, Coord.is_inside, hin]

/-- Witness for C10: a backend of dimensions `(10,5)` under a view whose
rect `{offset:(8,4), dimensions:(4,2)}` sticks out of it receives a write at
`(11,5)`, which is outside the backend's own dimensions. -/
theorem put_ignores_backend_dimensions_witness :
    (Rect.to_renderer ⟨⟨8, 4⟩, ⟨4, 2⟩⟩ (traceBackend ⟨10, 5⟩ ⟨0, 0⟩)).put []
      ⟨3, 1⟩ 'x' ⟨0, 0, 0⟩ = [RendererOp.putOp ⟨11, 5⟩ 'x' ⟨0, 0, 0⟩]
    ∧ Coord.is_inside_dimensions ⟨11, 5⟩ ⟨10, 5⟩ = false := by
  constructor
  · rw [put_ignores_backend_dimensions (traceBackend ⟨10, 5⟩ ⟨0, 0⟩) []
      ⟨⟨8, 4⟩, ⟨4, 2⟩⟩ ⟨3, 1⟩ 'x' ⟨0, 0, 0⟩ (by decide)]
    decide
  · decide

/-- C5 as stated is false: `+` on `Coord` does not saturate.  At
`a = (usize::MAX, 0)`, `b = (1, 0)` the sum's `x` is `0` (the wrapped
value), not `min (usize::MAX + 1) usize::MAX = usize::MAX` as the claim
requires. -/
theorem coord_add_saturation_counterexample :
    ((⟨usizeMax, 0⟩ : Coord) + ⟨1, 0⟩).x = 0
    ∧ min (usizeMax + 1) usizeMax = usizeMax
    ∧ (0 : Nat) ≠ usizeMax := by
  refine ⟨by decide, by decide, by decide⟩

/-- C5 (amended): `+` on `Coord` is component-wise plain `usize` addition —
modulo `2^64` on overflow, agreeing with the exact sum whenever that sum is
representable — and the saturating additions are `add_x`/`add_y`, which
clamp at `usize::MAX` on their axis and leave the other component
untouched. -/
theorem coord_add_wraps_not_saturates (a b c : Coord) (n : Nat) :
    ((a + b).x = (a.x + b.x) % USIZE_SIZE ∧ (a + b).y = (a.y + b.y) % USIZE_SIZE)
    ∧ (a.x + b.x ≤ usizeMax → (a + b).x = a.x + b.x)
    ∧ ((c.add_x n).x = min (c.x + n) usizeMax ∧ (c.add_x n).y = c.y)
    ∧ ((c.add_y n).y = min (c.y + n) usizeMax ∧ (c.add_y n).x = c.x) := by
  refine ⟨⟨rfl, rfl⟩, ?_, ⟨rfl, rfl⟩, ⟨rfl, rfl⟩⟩
  intro h
  exact wrapAdd_eq_of_le h

/-- Witness for the amended C5 at `(5,6) + (7,8)`. -/
theorem coord_add_wraps_not_saturates_witness :
    ((⟨5, 6⟩ : Coord) + ⟨7, 8⟩).x = 12 :=
  ((coord_add_wraps_not_saturates ⟨5, 6⟩ ⟨7, 8⟩ ⟨0, 0⟩ 0).2.1 (by decide)).trans
    (by decide)

theorem resolveSplitIndex_natCast (dim : Nat) (i : Nat) (hpos : 0 < i)
    (hlt : i < USIZE_SIZE) : resolveSplitIndex dim (i : Int) = some i := by
  have h0 : ¬ ((i : Int) < 0) := not_lt.mpr (Int.natCast_nonneg i)
  have h1 : (0 : Int) < (i : Int) := by exact_mod_cast hpos
  simp only [resolveSplitIndex, if_neg h0, if_pos h1]
  rw [usizeOfIsize_natCast i hlt]

/-- C2: for a split index `0 < i < ` the relevant dimension (on a rect whose
corners are representable), the vertical and horizontal splits return: a
first rect keeping `r.offset` with the split-axis dimension equal to `i`,
and a second rect whose offset is advanced by `i` on the split axis and
whose split-axis dimension is the remainder; both keep the other axis
unchanged, and the two split-axis dimensions sum back to the original —
an exact partition. -/
theorem split_at_partitions_rect (r : Rect) (i : Nat) (hpos : 0 < i)
    (hx : r.offset.x + r.dimensions.x ≤ usizeMax)
    (hy : r.offset.y + r.dimensions.y ≤ usizeMax) :
    (i < r.dimensions.x →
      r.split_verticaly_at (i : Int) = some
        ({ offset := r.offset, dimensions := { x := i, y := r.dimensions.y } },
         { offset := { x := r.offset.x + i, y := r.offset.y },
           dimensions := { x := r.dimensions.x - i, y := r.dimensions.y } })
      ∧ i + (r.dimensions.x - i) = r.dimensions.x)
    ∧ (i < r.dimensions.y →
      r.split_horizontaly_at (i : Int) = some
        ({ offset := r.offset, dimensions := { x := r.dimensions.x, y := i } },
         { offset := { x := r.offset.x, y := r.offset.y + i },
           dimensions := { x := r.dimensions.x, y := r.dimensions.y - i } })
      ∧ i + (r.dimensions.y - i) = r.dimensions.y) := by
  constructor
  · intro hlt
    have hres : resolveSplitIndex r.dimensions.x (i : Int) = some i :=
      resolveSplitIndex_natCast _ i hpos (by rw [usizeSize_eq]; omega)
    have hwrap : wrapAdd r.offset.x i = r.offset.x + i :=
      wrapAdd_eq_of_le (by omega)
    simp only [Rect.split_verticaly_at, hres, if_pos hlt, hwrap]
    exact ⟨trivial, by omega⟩
  · intro hlt
    have hres : resolveSplitIndex r.dimensions.y (i : Int) = some i :=
      resolveSplitIndex_natCast _ i hpos (by rw [usizeSize_eq]; omega)
    have hwrap : wrapAdd r.offset.y i = r.offset.y + i :=
      wrapAdd_eq_of_le (by omega)
    simp only [Rect.split_horizontaly_at, hres, if_pos hlt, hwrap]
    exact ⟨trivial, by omega⟩

/-- Witness for C2: splitting `{offset:(1,2), dimensions:(5,7)}` at `2` both
ways. -/
theorem split_at_partitions_rect_witness :
    Rect.split_verticaly_at ⟨⟨1, 2⟩, ⟨5, 7⟩⟩ 2
      = some (⟨⟨1, 2⟩, ⟨2, 7⟩⟩, ⟨⟨3, 2⟩, ⟨3, 7⟩⟩)
    ∧ Rect.split_horizontaly_at ⟨⟨1, 2⟩, ⟨5, 7⟩⟩ 2
      = some (⟨⟨1, 2⟩, ⟨5, 2⟩⟩, ⟨⟨1, 4⟩, ⟨5, 5⟩⟩) := by
  have h := split_at_partitions_rect ⟨⟨1, 2⟩, ⟨5, 7⟩⟩ 2 (by decide) (by decide) (by decide)
  exact ⟨((h.1 (by decide)).1).trans (by decide), ((h.2 (by decide)).1).trans (by decide)⟩

/-- C6 as stated is false: a negative index whose resolved value equals the
region's origin does not fail fatally.  On a `3×3` rect,
`split_verticaly_at (-3)` resolves to `0`, passes `assert!(0 < 3)`, and
returns a pair whose first rect has width `0` — the degenerate split the
claim says is disallowed. -/
theorem split_resolved_zero_counterexample :
    Rect.split_verticaly_at ⟨⟨0, 0⟩, ⟨3, 3⟩⟩ (-3)
      = some (⟨⟨0, 0⟩, ⟨0, 3⟩⟩, ⟨⟨0, 0⟩, ⟨3, 3⟩⟩)
    ∧ (Rect.split_verticaly_at ⟨⟨0, 0⟩, ⟨3, 3⟩⟩ (-3)).isSome = true := by
  refine ⟨by decide, by decide⟩

/-- C6 (amended): a split at literal index `0` fails fatally, and a positive
index whose value is not strictly less than the dimension fails fatally; but
the `0`-check happens before negative-index resolution, so a negative index
that resolves to the origin (`-dimension`) is not caught: when the dimension
is positive it passes the assertion and returns a pair whose first rect is
degenerate (zero extent on the split axis). -/
theorem split_fatal_cases_amended (r : Rect) (x : Int) :
    (r.split_verticaly_at 0 = none)
    ∧ (r.split_horizontaly_at 0 = none)
    ∧ (0 < x → (r.dimensions.x : Int) ≤ x → x < (USIZE_SIZE : Int) →
        r.split_verticaly_at x = none)
    ∧ (0 < x → (r.dimensions.y : Int) ≤ x → x < (USIZE_SIZE : Int) →
        r.split_horizontaly_at x = none)
    ∧ (0 < r.dimensions.x → r.dimensions.x < 2 ^ 63 →
        (r.split_verticaly_at (-(r.dimensions.x : Int))).map
          (fun p => p.1.dimensions.x) = some 0)
    ∧ (0 < r.dimensions.y → r.dimensions.y < 2 ^ 63 →
        (r.split_horizontaly_at (-(r.dimensions.y : Int))).map
          (fun p => p.1.dimensions.y) = some 0) := by
  have hres0 : ∀ dim : Nat, resolveSplitIndex dim 0 = none := fun _ => rfl
  have hresBig : ∀ dim : Nat, 0 < x → (dim : Int) ≤ x → x < (USIZE_SIZE : Int) →
      ∃ n : Nat, resolveSplitIndex dim x = some n ∧ dim ≤ n := by
    intro dim h0 hdim hlt
    refine ⟨x.toNat, ?_, ?_⟩
    · have hn : ¬ (x < 0) := by omega
      simp only [resolveSplitIndex, if_neg hn, if_pos h0]
      rw [usizeOfIsize_eq_toNat (le_of_lt h0) hlt]
    · omega
  have hresOrigin : ∀ dim : Nat, 0 < dim → dim < 2 ^ 63 →
      resolveSplitIndex dim (-(dim : Int)) = some 0 := by
    intro dim h0 hlt
    have hneg : (-(dim : Int)) < 0 := by omega
    simp only [resolveSplitIndex, if_pos hneg, isizeOfUsize, if_pos hlt]
    simp [usizeOfIsize]
  refine ⟨?_, ?_, ?_, ?_, ?_, ?_⟩
  · simp only [Rect.split_verticaly_at, hres0]
  · simp only [Rect.split_horizontaly_at, hres0]
  · intro h0 hdim hlt
    obtain ⟨n, hn, hge⟩ := hresBig r.dimensions.x h0 hdim hlt
    simp only [Rect.split_verticaly_at, hn, if_neg (not_lt.mpr hge)]
  · intro h0 hdim hlt
    obtain ⟨n, hn, hge⟩ := hresBig r.dimensions.y h0 hdim hlt
    simp only [Rect.split_horizontaly_at, hn, if_neg (not_lt.mpr hge)]
  · intro h0 hlt
    simp only [Rect.split_verticaly_at, hresOrigin r.dimensions.x h0 hlt, if_pos h0]
    rfl
  · intro h0 hlt
    simp only [Rect.split_horizontaly_at, hresOrigin r.dimensions.y h0 hlt, if_pos h0]
    rfl

/-- Witness for the amended C6 on a `3×3` rect with out-of-range index `5`. -/
theorem split_fatal_cases_amended_witness :
    Rect.split_verticaly_at ⟨⟨0, 0⟩, ⟨3, 3⟩⟩ 0 = none
    ∧ Rect.split_horizontaly_at ⟨⟨0, 0⟩, ⟨3, 3⟩⟩ 0 = none
    ∧ Rect.split_verticaly_at ⟨⟨0, 0⟩, ⟨3, 3⟩⟩ 5 = none
    ∧ (Rect.split_verticaly_at ⟨⟨0, 0⟩, ⟨3, 3⟩⟩ (-3)).map
        (fun p => p.1.dimensions.x) = some 0 := by
  have h := split_fatal_cases_amended ⟨⟨0, 0⟩, ⟨3, 3⟩⟩ 5
  exact ⟨h.1, h.2.1, h.2.2.1 (by decide) (by decide) (by decide),
    h.2.2.2.2.1 (by decide) (by decide)⟩

/-- C7 as stated is false at width `1`: `split_verticaly_at (-1)` resolves
to `0`, passes the assertion and returns a (degenerate) pair, while
`split_verticaly_at (W-1) = split_verticaly_at 0` panics — the two calls are
not equivalent. -/
theorem split_neg_one_width_one_counterexample :
    (Rect.split_verticaly_at ⟨⟨0, 0⟩, ⟨1, 1⟩⟩ (-1)).isSome = true
    ∧ Rect.split_verticaly_at ⟨⟨0, 0⟩, ⟨1, 1⟩⟩ ((1 : Int) - 1) = none
    ∧ Rect.split_verticaly_at ⟨⟨0, 0⟩, ⟨1, 1⟩⟩ (-1)
        ≠ Rect.split_verticaly_at ⟨⟨0, 0⟩, ⟨1, 1⟩⟩ ((1 : Int) - 1) := by
  refine ⟨by decide, by decide, by decide⟩

/-- C7 (amended): on a rect of width `W` with `2 ≤ W` (and `W` in `isize`
range, as any real width is), `split_verticaly_at (-1)` and
`split_verticaly_at (W-1)` resolve to the same index and return identical
results; the equivalence fails only at `W = 1`, where `-1` resolves to the
origin while `W-1 = 0` panics. -/
theorem split_neg_one_eq_width_sub_one (r : Rect)
    (h2 : 2 ≤ r.dimensions.x) (hlt : r.dimensions.x < 2 ^ 63) :
    r.split_verticaly_at (-1) = r.split_verticaly_at ((r.dimensions.x : Int) - 1) := by
  have hres : resolveSplitIndex r.dimensions.x (-1)
      = resolveSplitIndex r.dimensions.x ((r.dimensions.x : Int) - 1) := by
    have hn1 : ((-1 : Int) < 0) := by decide
    have hnn : ¬ ((r.dimensions.x : Int) - 1 < 0) := by omega
    have hp : (0 : Int) < (r.dimensions.x : Int) - 1 := by omega
    simp only [resolveSplitIndex, if_pos hn1, if_neg hnn, if_pos hp]
    have harg : isizeOfUsize r.dimensions.x + (-1) = (r.dimensions.x : Int) - 1 := by
      simp only [isizeOfUsize, if_pos hlt]
      omega
    rw [harg]
  simp only [Rect.split_verticaly_at, hres]

/-- Witness for the amended C7 on a rect of width `5`. -/
theorem split_neg_one_eq_width_sub_one_witness :
    Rect.split_verticaly_at ⟨⟨0, 0⟩, ⟨5, 5⟩⟩ (-1)
      = Rect.split_verticaly_at ⟨⟨0, 0⟩, ⟨5, 5⟩⟩ ((5 : Int) - 1) :=
  split_neg_one_eq_width_sub_one ⟨⟨0, 0⟩, ⟨5, 5⟩⟩ (by decide) (by decide)

theorem printLoop_trace (dims coord : Coord) (cm : ColorMap) (st : Style)
    (text : List Char) :
    ∀ (tr : List RendererOp) (i : Nat), coord.x + i + text.length ≤ usizeMax →
      printLoop (traceBackend dims cm) dims coord st tr i text
        = tr ++ printSpecOps dims coord st i text := by
  induction text with
  | nil => intro tr i _; simp [printLoop, printSpecOps]
  | cons ch rest ih =>
    intro tr i h
    have hsat : satAdd coord.x i = coord.x + i := by
      simp only [satAdd]
      exact min_eq_left (by omega)
    by_cases hc : coord.y < dims.y ∧ coord.x + i < dims.x
    · have hb : (coord.add_x i).is_inside_dimensions dims = true := by
        simp [Coord.add_x, Coord.is_inside_dimensions, hsat, hc.1, hc.2]
      have hput : (traceBackend dims cm).put tr (coord.add_x i) ch st
          = tr ++ [RendererOp.putOp { x := coord.x + i, y := coord.y } ch st] := by
        simp [traceBackend, Coord.add_x, hsat]
      simp only [printLoop, hb, if_true, printSpecOps, if_pos hc, hput]
      rw [ih (tr ++ [RendererOp.putOp { x := coord.x + i, y := coord.y } ch st])
        (i + 1) (by simp at h ⊢; omega)]
      simp
    · have hb : (coord.add_x i).is_inside_dimensions dims = false := by
        simp only [Coord.add_x, Coord.is_inside_dimensions, hsat]
        rcases Decidable.not_and_iff_or_not.mp hc with hcy | hcx
        · simp [hcy]
        · simp [hcx]
      simp only [printLoop, hb, printSpecOps, if_neg hc, Bool.false_eq_true,
        if_false, List.append_nil]

/-- C4: `print` writes one cell per code point, the `i`-th character at
`coord` advanced by `i` on the x axis, all with the same style, and stops at
the first character whose coordinate fails the strict bounds check against
`dimensions()` — never wrapping to the next line: on a trace backend the log
grows by exactly the spec-side list `printSpecOps`. -/
theorem print_writes_initial_run (dims coord : Coord) (cm : ColorMap)
    (tr : List RendererOp) (text : List Char) (st : Style)
    (hov : coord.x + text.length ≤ usizeMax) :
    (traceBackend dims cm).print tr coord text st
      = tr ++ printSpecOps dims coord st 0 text := by
  simp only [RendererModel.print, traceBackend]
  exact printLoop_trace dims coord cm st text tr 0 (by omega)

/-- Witness for C4, the spec's own example: on a surface of width `3`,
printing `"hello"` at the origin writes exactly `h`, `e`, `l` and drops the
rest. -/
theorem print_writes_initial_run_witness :
    (traceBackend ⟨3, 5⟩ ⟨0, 0⟩).print [] ⟨0, 0⟩ ['h', 'e', 'l', 'l', 'o'] ⟨0, 0, 0⟩
      = [RendererOp.putOp ⟨0, 0⟩ 'h' ⟨0, 0, 0⟩,
         RendererOp.putOp ⟨1, 0⟩ 'e' ⟨0, 0, 0⟩,
         RendererOp.putOp ⟨2, 0⟩ 'l' ⟨0, 0, 0⟩] := by
  rw [print_writes_initial_run ⟨3, 5⟩ ⟨0, 0⟩ ⟨0, 0⟩ [] ['h', 'e', 'l', 'l', 'o'] ⟨0, 0, 0⟩
    (by decide)]
  decide

theorem chainPut_exact (rs : List Rect) :
    ∀ c w : Coord, (∀ r ∈ rs, r.representable) → chainPut rs c = some w →
      w.x = c.x + (offsetSum rs).x ∧ w.y = c.y + (offsetSum rs).y := by
  induction rs with
  | nil =>
    intro c w _ h
    simp only [chainPut, Option.some.injEq] at h
    subst h
    simp [offsetSum]
  | cons r rest ih =>
    intro c w hrep h
    simp only [chainPut] at h
    by_cases hin : c.is_inside r = true
    · rw [if_pos hin] at h
      obtain ⟨hy, hx⟩ := (is_inside_eq_true_iff c r).mp hin
      have hr := hrep r (List.mem_cons_self r rest)
      have hax : (c + r.offset).x = c.x + r.offset.x := by
        rw [coord_add_x]
        exact wrapAdd_eq_of_le (by have := hr.1; omega)
      have hay : (c + r.offset).y = c.y + r.offset.y := by
        rw [coord_add_y]
        exact wrapAdd_eq_of_le (by have := hr.2; omega)
      have hrec := ih (c + r.offset) w
        (fun q hq => hrep q (List.mem_cons_of_mem r hq)) h
      simp only [offsetSum]
      omega
    · rw [if_neg hin] at h
      exact absurd h (by simp)

theorem chainPut_mem_region (rs : List Rect) :
    ∀ (c w : Coord) (i : Nat) (hi : i < rs.length),
      (∀ r ∈ rs, r.representable) → chainPut rs c = some w →
      ((rs.get ⟨i, hi⟩).offset.x + (offsetSum (rs.drop (i + 1))).x ≤ w.x
        ∧ w.x < (rs.get ⟨i, hi⟩).offset.x + (rs.get ⟨i, hi⟩).dimensions.x
            + (offsetSum (rs.drop (i + 1))).x)
      ∧ ((rs.get ⟨i, hi⟩).offset.y + (offsetSum (rs.drop (i + 1))).y ≤ w.y
        ∧ w.y < (rs.get ⟨i, hi⟩).offset.y + (rs.get ⟨i, hi⟩).dimensions.y
            + (offsetSum (rs.drop (i + 1))).y) := by
  induction rs with
  | nil => intro c w i hi; exact absurd hi (by simp)
  | cons r rest ih =>
    intro c w i hi hrep hchain
    simp only [chainPut] at hchain
    by_cases hin : c.is_inside r = true
    · rw [if_pos hin] at hchain
      obtain ⟨hy, hx⟩ := (is_inside_eq_true_iff c r).mp hin
      have hr := hrep r (List.mem_cons_self r rest)
      have hax : (c + r.offset).x = c.x + r.offset.x := by
        rw [coord_add_x]
        exact wrapAdd_eq_of_le (by have := hr.1; omega)
      have hay : (c + r.offset).y = c.y + r.offset.y := by
        rw [coord_add_y]
        exact wrapAdd_eq_of_le (by have := hr.2; omega)
      cases i with
      | zero =>
        have hexact := chainPut_exact rest (c + r.offset) w
          (fun q hq => hrep q (List.mem_cons_of_mem r hq)) hchain
        have hget : (r :: rest).get ⟨0, hi⟩ = r := rfl
        have hdrop : (r :: rest).drop (0 + 1) = rest := rfl
        rw [hget, hdrop]
        omega
      | succ j =>
        have hj : j < rest.length := by simpa using hi
        have hrec := ih (c + r.offset) w j hj
          (fun q hq => hrep q (List.mem_cons_of_mem r hq)) hchain
        have hget : (r :: rest).get ⟨j + 1, hi⟩ = rest.get ⟨j, hj⟩ := rfl
        have hdrop : (r :: rest).drop (j + 1 + 1) = rest.drop (j + 1) := rfl
        rw [hget, hdrop]
        exact hrec
    · rw [if_neg hin] at hchain
      exact absurd hchain (by simp)

theorem nestedRenderer_put {σ : Type} (R : RendererModel σ) (ch : Char) (st : Style) :
    ∀ (rs : List Rect) (s : σ) (c : Coord),
      (nestedRenderer rs R).put s c ch st
        = match chainPut rs c with
          | some w => R.put s w ch st
          | none => s := by
  intro rs
  induction rs with
  | nil => intro s c; rfl
  | cons r rest ih =>
    intro s c
    simp only [nestedRenderer, View.renderer, chainPut]
    by_cases hin : c.is_inside r = true
    · simp only [hin, if_true]
      exact ih s (c + r.offset)
    · simp only [hin, Bool.false_eq_true, if_false]

/-- C1: a `put` issued through a chain of nested views (outermost first,
each rect representable) that reaches the base backend does so as exactly
one backend `put` at the chain coordinate `w`, and `w` lies inside the
region of the `i`-th enclosing view — offset at least, offset plus
dimensions strictly above — expressed in base-backend coordinates on both
axes. -/
theorem nested_views_clip_to_ancestors {σ : Type} (R : RendererModel σ) (s : σ)
    (ch : Char) (st : Style) (rs : List Rect) (c w : Coord) (i : Nat)
    (hrep : ∀ r ∈ rs, r.representable)
    (hchain : chainPut rs c = some w)
    (hi : i < rs.length) :
    (nestedRenderer rs R).put s c ch st = R.put s w ch st
    ∧ ((rs.get ⟨i, hi⟩).offset.x + (offsetSum (rs.drop (i + 1))).x ≤ w.x
        ∧ w.x < (rs.get ⟨i, hi⟩).offset.x + (rs.get ⟨i, hi⟩).dimensions.x
            + (offsetSum (rs.drop (i + 1))).x)
    ∧ ((rs.get ⟨i, hi⟩).offset.y + (offsetSum (rs.drop (i + 1))).y ≤ w.y
        ∧ w.y < (rs.get ⟨i, hi⟩).offset.y + (rs.get ⟨i, hi⟩).dimensions.y
            + (offsetSum (rs.drop (i + 1))).y) := by
  have hbounds := chainPut_mem_region rs c w i hi hrep hchain
  refine ⟨?_, hbounds.1, hbounds.2⟩
  rw [nestedRenderer_put R ch st rs s c, hchain]

/-- Witness for C1: the chain `[{offset:(2,1), dims:(4,3)},
{offset:(5,2), dims:(10,8)}]` maps the local write at `(1,1)` to the single
backend write `(8,4)`, inside the outer view's absolute region. -/
theorem nested_views_clip_to_ancestors_witness :
    (nestedRenderer [⟨⟨2, 1⟩, ⟨4, 3⟩⟩, ⟨⟨5, 2⟩, ⟨10, 8⟩⟩]
        (traceBackend ⟨20, 20⟩ ⟨0, 0⟩)).put [] ⟨1, 1⟩ 'q' ⟨0, 0, 0⟩
      = [RendererOp.putOp ⟨8, 4⟩ 'q' ⟨0, 0, 0⟩] := by
  have h := nested_views_clip_to_ancestors (traceBackend ⟨20, 20⟩ ⟨0, 0⟩) [] 'q'
    ⟨0, 0, 0⟩ [⟨⟨2, 1⟩, ⟨4, 3⟩⟩, ⟨⟨5, 2⟩, ⟨10, 8⟩⟩] ⟨1, 1⟩ ⟨8, 4⟩ 0
    (by decide) (by decide) (by decide)
  exact h.1.trans (by decide)

end Brz
